import Mathlib

/-!
Verification of the slide2anki repository's specification against its code.

The repository's web client (`apps/web`) is present in source form and is
embedded directly.  The document-processing orchestration core (chunk
planner, reducer library, dedup/merge index) is described by the
specification and by `packages/core/README.md` but its implementation
files are not part of the source tree; those components are modelled
from the specification's words, as marked on each definition.
-/

namespace Slide2Anki

/-! ## Chunk Planner (spec §4.3) -/

/-- Modelled from the spec: the Chunk Planner's overlap size,
`round(targetSize * overlapRatio)`, clamped so that `overlap < targetSize`.
The implementation of the planner is not in the source tree. -/
def overlapOf (targetSize : Nat) (overlapRatio : ℚ) : Nat :=
  min (round ((targetSize : ℚ) * overlapRatio)).toNat (targetSize - 1)

/-- Modelled from the spec: the planner's window loop.  Starting at `start`,
emit the window `[start, start + targetSize)`; the final window is shrunk to
end exactly at `total` rather than padded.  Successive windows advance by
`step = targetSize - overlap` so adjacent windows share `overlap` units.
`fuel` bounds the recursion; `total` is always sufficient. -/
def planFrom (total targetSize step : Nat) : Nat → Nat → List (Nat × Nat)
  | 0, _ => []
  | fuel + 1, start =>
    if total ≤ start + targetSize then
      [(start, total)]
    else
      (start, start + targetSize) :: planFrom total targetSize step fuel (start + step)

/-- Modelled from the spec: `plan(totalUnits, targetSize, overlapRatio)`
returns the ordered list of half-open ranges covering `[0, totalUnits)`
with overlapping windows.  The planner implementation is not in the
source tree; this follows §4.3 of the specification. -/
def plan (totalUnits targetSize : Nat) (overlapRatio : ℚ) : List (Nat × Nat) :=
  if totalUnits = 0 ∨ targetSize = 0 then []
  else planFrom totalUnits targetSize (targetSize - overlapOf targetSize overlapRatio)
    totalUnits 0

/-! ## Fan-in merge over dispatch indices (spec §4.1, §5) -/

/-- Modelled from the spec: the branch result carrying dispatch index `i`
among the successful results of a fan-out batch.  The orchestrator
implementation is not in the source tree. -/
def resultAt {α : Type} (l : List (Nat × α)) (i : Nat) : Option α :=
  (l.find? (fun p => p.1 == i)).map Prod.snd

/-- Modelled from the spec: an upper bound on the dispatch indices present
in a batch of branch results. -/
def indexBound {α : Type} (l : List (Nat × α)) : Nat :=
  l.foldr (fun p m => max (p.1 + 1) m) 0

/-- Modelled from the spec: the successful branch results listed in
dispatch-index order, regardless of the order in which they completed. -/
def inDispatchOrder {α : Type} (l : List (Nat × α)) : List α :=
  (List.range (indexBound l)).filterMap (resultAt l)

/-- Modelled from the spec: fan-in applies the field's reduce function over
the successful branch results in dispatch-index order. -/
def fanIn {α β : Type} (reduce : β → List α → β) (existing : β)
    (l : List (Nat × α)) : β :=
  reduce existing (inDispatchOrder l)

/-! ## Dedup/Merge Index (spec §3, §4.4) -/

/-- Modelled from the spec: content normalization — case folding and
whitespace collapse — applied before hashing.  The index implementation is
not in the source tree. -/
def wordsAux : List Char → List Char → List (List Char)
  | [], cur => if cur = [] then [] else [cur.reverse]
  | c :: rest, cur =>
    if c.isWhitespace then
      if cur = [] then wordsAux rest [] else cur.reverse :: wordsAux rest []
    else wordsAux rest (c :: cur)

/-- Modelled from the spec: lowercases the content and collapses whitespace
runs to single spaces. -/
def normalize (s : String) : String :=
  ⟨(List.intersperse [' '] (wordsAux (s.data.map Char.toLower) [])).flatten⟩

/-- Modelled from the spec: a deduplicated knowledge unit — content hash
("anchor", modelled as the normalized content itself, since equal hashes are
treated as semantic equivalence), normalized content, ordered evidence
references, position (earliest dispatch index), and the user-edited flag. -/
structure CanonicalUnit where
  anchor : String
  content : String
  evidence : List String
  position : Nat
  userEdited : Bool
deriving DecidableEq

/-- Modelled from the spec: append an evidence reference if it is not
already present (dedup of evidence, not just content). -/
def addEvidence (ev : List String) (e : String) : List String :=
  if e ∈ ev then ev else ev ++ [e]

/-- Modelled from the spec: merge a repeat occurrence into an existing
canonical unit — evidence merges, content and position stay untouched
(also when the unit is user-edited: incoming automatic content is
discarded entirely, only the evidence list grows). -/
def mergeInto (u : CanonicalUnit) (evidenceRef : String) : CanonicalUnit :=
  { u with evidence := addEvidence u.evidence evidenceRef }

/-- Modelled from the spec: `upsert(normalizedContent, evidenceRef,
dispatchIndex)` — on first occurrence of a content hash a new CanonicalUnit
is created at the given dispatch index; on repeat occurrence the evidence
reference is appended if not already present and content/position are left
untouched. -/
def upsert (idx : List CanonicalUnit) (content evidenceRef : String)
    (dispatchIndex : Nat) : List CanonicalUnit :=
  if idx.any (fun u => u.anchor == normalize content) then
    idx.map (fun u =>
      if u.anchor = normalize content then mergeInto u evidenceRef else u)
  else
    idx ++ [{ anchor := normalize content, content := normalize content,
              evidence := [evidenceRef], position := dispatchIndex,
              userEdited := false }]

/-! ## Reducer Library (spec §4.5) -/

/-- Modelled from the spec: the ordered-append-unique reducer for
evidence/claim lists; `none` is the empty/absent existing value.  The
reducer library implementation is not in the source tree. -/
def orderedAppendUnique {α : Type} [DecidableEq α] (existing : Option (List α))
    (incoming : List α) : List α :=
  incoming.foldl (fun acc x => if x ∈ acc then acc else acc ++ [x])
    (existing.getD [])

/-- Modelled from the spec: the index-merge reducer delegates to the
Dedup/Merge Index, upserting each incoming (content, evidenceRef,
dispatchIndex) triple. -/
def indexMerge (existing : Option (List CanonicalUnit))
    (incoming : List (String × String × Nat)) : List CanonicalUnit :=
  incoming.foldl (fun idx t => upsert idx t.1 t.2.1 t.2.2) (existing.getD [])

/-- Modelled from the spec: the replace-if-absent reducer for scalar fields
set by exactly one producer. -/
def replaceIfAbsent {α : Type} (existing : Option α) (incoming : List α) :
    Option α :=
  match existing with
  | some v => some v
  | none => incoming.head?

/-! ## Web client: job status (apps/web/lib/api.ts) -/

/-- Job status values from the `Job` interface (api.ts line 75). -/
inductive JobStatus where
  | pending
  | running
  | completed
  | failed
  | cancelled
deriving DecidableEq

/-- The `Job` interface (api.ts lines 69-81): the job status object the
client receives from `getJob`. -/
structure Job where
  id : String
  project_id : String
  document_id : Option String
  deck_id : Option String
  job_type : String
  status : JobStatus
  progress : Nat
  current_step : Option String
  error_message : Option String
  created_at : String
  finished_at : Option String
deriving DecidableEq

/-- The field names of the `Job` interface (api.ts lines 69-81), in
declaration order. -/
def jobFields : List String :=
  ["id", "project_id", "document_id", "deck_id", "job_type", "status",
   "progress", "current_step", "error_message", "created_at", "finished_at"]

/-! ## Web client: progress stream handlers
(src/unnamed/part_003 lines 75-99, apps/web/app/jobs/[jobId]/page.tsx
lines 145-156) -/

/-- The payload shape both stream handlers parse from an event:
`{ progress: number; step: string }`. -/
structure ProgressEvent where
  progress : Nat
  step : String

/-- The `JobWithDeck` interface of the dashboard (`Job` plus the deck
name). -/
structure JobWithDeck extends Job where
  deck_name : String
deriving DecidableEq

/-- Embeds the dashboard's stream `onmessage` handler: `none` models an
event payload that failed to parse as JSON (the handler's catch branch) or
was never delivered; a parsed payload updates only the matching job's
`progress` and `current_step`. -/
def onStreamMessage (jobs : List JobWithDeck) (jobId : String)
    (payload : Option ProgressEvent) : List JobWithDeck :=
  match payload with
  | none => jobs
  | some d =>
    jobs.map (fun item =>
      if item.id = jobId then
        { item with progress := d.progress, current_step := some d.step }
      else item)

/-- Embeds the job detail page's stream `onmessage` handler: `none` models
an unparseable or lost event payload; a parsed payload updates only
`progress` and `current_step` of the current job when one is loaded. -/
def onJobStreamMessage (job : Option Job) (payload : Option ProgressEvent) :
    Option Job :=
  match payload with
  | none => job
  | some d =>
    job.map (fun current =>
      { current with progress := d.progress, current_step := some d.step })

/-! ## Web client: `ApiClient.request` (api.ts lines 209-228) -/

/-- The outcome of reading the error response body with
`response.json().catch(() => ({}))`: parse failure yields the empty object
(whose `detail` is undefined); a parsed object may or may not carry a
string `detail`. -/
inductive ParsedBody where
  | failed
  | obj (detail : Option String)
deriving DecidableEq

/-- An HTTP response as `request` observes it: the `ok` flag, the numeric
status, the parsed success body, and the parsed error body. -/
structure ApiResponse (τ : Type) where
  ok : Bool
  status : Nat
  body : τ
  errorBody : ParsedBody

/-- Embeds `ApiClient.request`: on an ok response the parsed body is
returned; otherwise an error is thrown whose message is
`error.detail || "API error: <status>"` — the JavaScript `||` falls back to
the generic message when `detail` is missing, undefined, or the empty
string (falsy). -/
def requestResult {τ : Type} (resp : ApiResponse τ) : Except String τ :=
  if resp.ok then Except.ok resp.body
  else Except.error
    (match resp.errorBody with
     | ParsedBody.obj (some d) =>
       if d = "" then "API error: " ++ toString resp.status else d
     | _ => "API error: " ++ toString resp.status)

/-- The claim's reading of the error message, from its words: the `detail`
field whenever the error body parses and contains one, the generic
message otherwise.  Stated for comparison with `requestResult`. -/
def claimedErrorMessage : ParsedBody → Nat → String
  | ParsedBody.obj (some d), _ => d
  | _, status => "API error: " ++ toString status

/-! ## Web client: review page `updateCardStatus`
(src/unnamed/part_001 lines 161-183) -/

/-- Card review status values from the `CardDraft` interface (api.ts
line 104). -/
inductive CardStatus where
  | pending
  | approved
  | rejected
deriving DecidableEq

/-- The `CardDraft` interface (api.ts lines 94-105). -/
structure CardDraft where
  id : String
  deck_id : String
  anchor_id : Option String
  front : String
  back : String
  tags : List String
  confidence : ℚ
  flags_json : List String
  evidence_json : List String
  status : CardStatus
deriving DecidableEq

/-- The review client's state relevant to `updateCardStatus`: the card
list, the current index, and the edit/save flags. -/
structure ReviewState where
  cards : List CardDraft
  currentIndex : Nat
  isEditing : Bool
  isSaving : Bool
deriving DecidableEq

/-- Maps a function over a list together with each element's position. -/
def mapWithIndex {α : Type} (f : Nat → α → α) : Nat → List α → List α
  | _, [] => []
  | i, x :: xs => f i x :: mapWithIndex f (i + 1) xs

/-- Embeds `updateCardStatus` of the review client: if there is no current
card or an edit or save is in progress, it returns without touching the
cards and without issuing an update request (the Bool component); otherwise
it sets the status of the card at `currentIndex` and issues one request. -/
def updateCardStatus (st : ReviewState) (status : CardStatus) :
    ReviewState × Bool :=
  if (st.cards[st.currentIndex]?).isNone || st.isEditing || st.isSaving then
    (st, false)
  else
    let newCards := mapWithIndex (fun i card =>
      if i = st.currentIndex then { card with status := status } else card)
      0 st.cards
    ({ st with cards := newCards }, true)

/-! ## Theorems about the Chunk Planner -/

/-- Unfolding equation for `planFrom` at positive fuel. -/
lemma planFrom_succ (total ts step fuel start : Nat) :
    planFrom total ts step (fuel + 1) start =
      if total ≤ start + ts then [(start, total)]
      else (start, start + ts) :: planFrom total ts step fuel (start + step) := rfl

/-- The first window emitted from `start` is `[start, min (start+ts) total)`. -/
lemma planFrom_head (total ts step fuel start : Nat) :
    (planFrom total ts step (fuel + 1) start).head? =
      some (start, min (start + ts) total) := by
  rw [planFrom_succ]
  split
  · simp [Nat.min_eq_right ‹total ≤ start + ts›]
  · simp [Nat.min_eq_left (Nat.le_of_lt (Nat.lt_of_not_le ‹¬ total ≤ start + ts›))]

/-- Every emitted window is nonempty and ends within the sequence. -/
lemma planFrom_mem (total ts step : Nat) (h1 : 1 ≤ step) (h2 : step ≤ ts) :
    ∀ fuel start, total - start ≤ fuel → start < total →
      ∀ p ∈ planFrom total ts step fuel start, p.1 < p.2 ∧ p.2 ≤ total := by
  intro fuel
  induction fuel with
  | zero => intro start hf hs; omega
  | succ n ih =>
    intro start hf hs p hp
    rw [planFrom_succ] at hp
    split at hp
    · rcases List.mem_singleton.mp hp with rfl
      exact ⟨hs, Nat.le_refl _⟩
    · rename_i hlt
      rcases List.mem_cons.mp hp with rfl | htail
      · exact ⟨by omega, by omega⟩
      · exact ih (start + step) (by omega) (by omega) p htail

/-- The emitted windows are strictly ordered by start and leave no gap:
each next window starts no later than the previous window ends. -/
lemma planFrom_chain (total ts step : Nat) (h1 : 1 ≤ step) (h2 : step ≤ ts) :
    ∀ fuel start, total - start ≤ fuel →
      List.Chain' (fun p q : Nat × Nat => p.1 < q.1 ∧ q.1 ≤ p.2)
        (planFrom total ts step fuel start) := by
  intro fuel
  induction fuel with
  | zero => intro start hf; simp [planFrom]
  | succ n ih =>
    intro start hf
    rw [planFrom_succ]
    split
    · simp
    · rename_i hlt
      rw [List.chain'_cons']
      refine ⟨?_, ih (start + step) (by omega)⟩
      intro q hq
      cases n with
      | zero => simp [planFrom] at hq
      | succ m =>
        rw [planFrom_head] at hq
        rcases Option.mem_some_iff.mp hq with rfl
        exact ⟨by omega, by omega⟩

/-- Every unit from `start` up to `total` lies inside some emitted window. -/
lemma planFrom_cover (total ts step : Nat) (h1 : 1 ≤ step) (h2 : step ≤ ts) :
    ∀ fuel start, total - start ≤ fuel →
      ∀ u, start ≤ u → u < total →
        ∃ p ∈ planFrom total ts step fuel start, p.1 ≤ u ∧ u < p.2 := by
  intro fuel
  induction fuel with
  | zero => intro start hf u hu1 hu2; omega
  | succ n ih =>
    intro start hf u hu1 hu2
    rw [planFrom_succ]
    split
    · exact ⟨(start, total), List.mem_singleton.mpr rfl, hu1, hu2⟩
    · rename_i hlt
      by_cases hcase : u < start + ts
      · exact ⟨(start, start + ts), List.mem_cons_self _ _, hu1, hcase⟩
      · obtain ⟨p, hp, hp1, hp2⟩ :=
          ih (start + step) (by omega) u (by omega) hu2
        exact ⟨p, List.mem_cons_of_mem _ hp, hp1, hp2⟩

/-- The final emitted window ends exactly at `total`. -/
lemma planFrom_lastEnd (total ts step : Nat) (h1 : 1 ≤ step) (h2 : step ≤ ts) :
    ∀ fuel start, total - start ≤ fuel → start < total →
      ((planFrom total ts step fuel start).getLast?).map Prod.snd = some total := by
  intro fuel
  induction fuel with
  | zero => intro start hf hs; omega
  | succ n ih =>
    intro start hf hs
    rw [planFrom_succ]
    split
    · simp
    · rename_i hlt
      have htail := ih (start + step) (by omega) (by omega)
      cases htl : planFrom total ts step n (start + step) with
      | nil => rw [htl] at htail; simp at htail
      | cons y ys =>
        rw [htl] at htail
        rw [List.getLast?_cons_cons]
        exact htail

lemma overlapOf_ten : overlapOf 10 (3 / 20 : ℚ) = 2 := by
  have h : round ((10 : ℚ) * (3 / 20)) = 2 := by norm_num [round_eq]
  simp [overlapOf, h]

lemma plan_scenario : plan 23 10 (3 / 20 : ℚ) = [(0, 10), (8, 18), (16, 23)] := by
  rw [plan, if_neg (by decide)]
  rw [overlapOf_ten]
  decide

/-- C1: the spec's scenario claims `plan(23, 10, 0.15)` returns the ranges
`[0,10), [9,19), [17,23)`.  It does not: with `overlap = round(10*0.15) = 2`
adjacent windows share two units and advance by `targetSize - overlap = 8`,
so the planner modelled from the spec's own §4.3 rule returns
`[0,10), [8,18), [16,23)`.  (The claimed `[0,10), [9,19)` windows would share
only one unit, contradicting the stated overlap of 2.) -/
theorem plan_scenario_ranges_claim_false :
    plan 23 10 (3 / 20 : ℚ) ≠ [(0, 10), (9, 19), (17, 23)] := by
  rw [plan_scenario]
  decide

/-- C1 (amended): for totalUnits = 23, targetSize = 10, overlapRatio = 0.15,
the overlap is `round(10 * 0.15) = 2` and the planner returns exactly the
three ranges `[0,10), [8,18), [16,23)` — each adjacent pair of windows
sharing `overlap = 2` units and the final window shrunk to end at 23. -/
theorem plan_scenario_ranges :
    overlapOf 10 (3 / 20 : ℚ) = 2 ∧
      plan 23 10 (3 / 20 : ℚ) = [(0, 10), (8, 18), (16, 23)] :=
  ⟨overlapOf_ten, plan_scenario⟩

/-- C2: for every valid input (totalUnits ≥ 1, targetSize ≥ 1, and an
overlap ratio whose rounded overlap is below targetSize), `plan` is
deterministic, its ranges are strictly ordered and contiguous with no gaps,
they cover `[0, totalUnits)`, the first range starts at 0, every range is
nonempty and within bounds, and the final range ends exactly at totalUnits
(shrunk rather than padded). -/
theorem plan_deterministic_ordered_covering (t s : Nat) (r : ℚ)
    (ht : 1 ≤ t) (hs : 1 ≤ s)
    (_hr : (round ((s : ℚ) * r)).toNat < s) :
    plan t s r = plan t s r ∧
    (plan t s r).head? = some (0, min s t) ∧
    List.Chain' (fun p q : Nat × Nat => p.1 < q.1 ∧ q.1 ≤ p.2) (plan t s r) ∧
    (∀ p ∈ plan t s r, p.1 < p.2 ∧ p.2 ≤ t) ∧
    (∀ u, u < t → ∃ p ∈ plan t s r, p.1 ≤ u ∧ u < p.2) ∧
    ((plan t s r).getLast?).map Prod.snd = some t := by
  have hguard : ¬ (t = 0 ∨ s = 0) := by omega
  have hovle : overlapOf s r ≤ s - 1 := min_le_right _ _
  have h1 : 1 ≤ s - overlapOf s r := by omega
  have h2 : s - overlapOf s r ≤ s := by omega
  simp only [plan, if_neg hguard]
  obtain ⟨m, rfl⟩ : ∃ m, t = m + 1 := ⟨t - 1, by omega⟩
  refine ⟨trivial, ?_, ?_, ?_, ?_, ?_⟩
  · rw [planFrom_head]
    simp [Nat.min_comm]
  · exact planFrom_chain _ _ _ h1 h2 _ 0 (by omega)
  · exact planFrom_mem _ _ _ h1 h2 _ 0 (by omega) (by omega)
  · intro u hu
    exact planFrom_cover _ _ _ h1 h2 _ 0 (by omega) u (by omega) hu
  · exact planFrom_lastEnd _ _ _ h1 h2 _ 0 (by omega) (by omega)

/-- Witness for `plan_deterministic_ordered_covering` at the concrete input
(23, 10, 0.15). -/
theorem plan_deterministic_ordered_covering_witness :
    (plan 23 10 (3 / 20 : ℚ)).head? = some (0, min 10 23) ∧
    ((plan 23 10 (3 / 20 : ℚ)).getLast?).map Prod.snd = some 23 := by
  have h := plan_deterministic_ordered_covering 23 10 (3 / 20 : ℚ)
    (by decide) (by decide) (by norm_num [round_eq])
  exact ⟨h.2.1, h.2.2.2.2.2⟩

/-! ## Theorems about fan-in order independence -/

/-- Finding the first match equals taking the head of the filtered list. -/
lemma find?_eq_head?_filter {α : Type} (p : α → Bool) (l : List α) :
    l.find? p = (l.filter p).head? := by
  induction l with
  | nil => rfl
  | cons a l ih =>
    cases h : p a with
    | true => rw [List.find?_cons_of_pos _ h, List.filter_cons_of_pos h]; rfl
    | false => rw [List.find?_cons_of_neg _ (by simp [h]),
        List.filter_cons_of_neg (by simp [h]), ih]

/-- A duplicate-free list whose elements are all equal has at most one
element. -/
lemma length_le_one_of_nodup_of_all_eq {α : Type} {l : List α} {i : α}
    (hnd : l.Nodup) (hall : ∀ x ∈ l, x = i) : l.length ≤ 1 := by
  cases l with
  | nil => simp
  | cons x xs =>
    cases xs with
    | nil => simp
    | cons y ys =>
      exfalso
      have hx : x = i := hall x (List.mem_cons_self _ _)
      have hy : y = i := hall y (List.mem_cons_of_mem _ (List.mem_cons_self _ _))
      have : x ∉ y :: ys := (List.nodup_cons.mp hnd).1
      exact this (hx.trans hy.symm ▸ List.mem_cons_self _ _)

/-- With duplicate-free dispatch indices, the result at any index is
independent of completion order. -/
lemma resultAt_perm {α : Type} {l₁ l₂ : List (Nat × α)}
    (hnd : (l₁.map Prod.fst).Nodup) (hp : l₁.Perm l₂) (i : Nat) :
    resultAt l₁ i = resultAt l₂ i := by
  unfold resultAt
  rw [find?_eq_head?_filter, find?_eq_head?_filter]
  have hperm := hp.filter (fun p => p.1 == i)
  have hlen : (l₁.filter (fun p => p.1 == i)).length ≤ 1 := by
    have hsub : ((l₁.filter (fun p => p.1 == i)).map Prod.fst).Sublist
        (l₁.map Prod.fst) := (List.filter_sublist _).map _
    have hall : ∀ x ∈ (l₁.filter (fun p => p.1 == i)).map Prod.fst, x = i := by
      intro x hx
      rcases List.mem_map.mp hx with ⟨q, hq, rfl⟩
      simpa using (List.mem_filter.mp hq).2
    have := length_le_one_of_nodup_of_all_eq (hnd.sublist hsub) hall
    simpa using this
  rcases hfl : l₁.filter (fun p => p.1 == i) with _ | ⟨x, xs⟩
  · rw [hfl] at hperm
    rw [hfl, (hperm.symm.eq_nil : l₂.filter _ = [])]
  · rw [hfl] at hperm hlen
    cases xs with
    | cons y ys => simp at hlen
    | nil =>
      rw [hfl, (List.perm_singleton.mp hperm.symm : l₂.filter _ = [x])]

/-- The dispatch-index bound is independent of completion order. -/
lemma indexBound_perm {α : Type} {l₁ l₂ : List (Nat × α)} (hp : l₁.Perm l₂) :
    indexBound l₁ = indexBound l₂ := by
  haveI : LeftCommutative (fun (p : Nat × α) (m : Nat) => max (p.1 + 1) m) :=
    ⟨fun _ _ _ => max_left_comm _ _ _⟩
  exact hp.foldr_eq _

/-- With duplicate-free dispatch indices, the dispatch-ordered result list
is independent of completion order. -/
lemma inDispatchOrder_perm {α : Type} {l₁ l₂ : List (Nat × α)}
    (hnd : (l₁.map Prod.fst).Nodup) (hp : l₁.Perm l₂) :
    inDispatchOrder l₁ = inDispatchOrder l₂ := by
  unfold inDispatchOrder
  rw [indexBound_perm hp, funext (resultAt_perm hnd hp)]

/-- C3: a fan-in merge depends only on the multiset of successful branch
results paired with their stable dispatch indices, not on completion order:
for every reducer (in particular index-merge and ordered-append), reducing
any permutation of the incoming batch yields the same merged state, so a
deterministic input graph produces deterministic output. -/
theorem fanIn_completion_order_independent {α β : Type}
    (reduce : β → List α → β) (existing : β) (l₁ l₂ : List (Nat × α))
    (hnd : (l₁.map Prod.fst).Nodup) (hp : l₁.Perm l₂) :
    fanIn reduce existing l₁ = fanIn reduce existing l₂ := by
  unfold fanIn
  rw [inDispatchOrder_perm hnd hp]

/-- Witness for `fanIn_completion_order_independent`: two branches finishing
in either order merge to the same state. -/
theorem fanIn_completion_order_independent_witness :
    fanIn (fun (e : List Nat) inc => e ++ inc) [] [(0, 10), (1, 20)] =
      fanIn (fun (e : List Nat) inc => e ++ inc) [] [(1, 20), (0, 10)] :=
  fanIn_completion_order_independent _ [] _ _ (by decide) (by decide)

/-! ## Theorems about the Dedup/Merge Index -/

/-- The added evidence reference is present afterwards. -/
lemma mem_addEvidence (ev : List String) (e : String) : e ∈ addEvidence ev e := by
  unfold addEvidence
  split
  · assumption
  · exact List.mem_append_right _ (List.mem_singleton.mpr rfl)

/-- Adding the same evidence reference twice is the same as adding it once. -/
lemma addEvidence_addEvidence (ev : List String) (e : String) :
    addEvidence (addEvidence ev e) e = addEvidence ev e := by
  rw [addEvidence, if_pos (mem_addEvidence ev e)]

lemma mergeInto_anchor (u : CanonicalUnit) (e : String) :
    (mergeInto u e).anchor = u.anchor := rfl

/-- Merging the same evidence reference twice is the same as merging once. -/
lemma mergeInto_mergeInto (u : CanonicalUnit) (e : String) :
    mergeInto (mergeInto u e) e = mergeInto u e := by
  simp [mergeInto, addEvidence_addEvidence]

/-- Mapping a pointwise-identity function leaves a list unchanged. -/
lemma map_eq_self_of {α : Type} {l : List α} {f : α → α}
    (h : ∀ x ∈ l, f x = x) : l.map f = l :=
  (List.map_congr_left h).trans (List.map_id l)

/-- One upsert makes the content's anchor present in the index. -/
lemma upsert_any (idx : List CanonicalUnit) (c e : String) (i : Nat) :
    (upsert idx c e i).any (fun u => u.anchor == normalize c) = true := by
  unfold upsert
  split
  · rename_i h
    rcases List.any_eq_true.mp h with ⟨u, hu, hanchor⟩
    refine List.any_eq_true.mpr ⟨mergeInto u e, ?_, ?_⟩
    · refine List.mem_map.mpr ⟨u, hu, ?_⟩
      rw [if_pos (by simpa using hanchor)]
    · simpa [mergeInto_anchor] using hanchor
  · refine List.any_eq_true.mpr
      ⟨{ anchor := normalize c, content := normalize c, evidence := [e],
         position := i, userEdited := false }, ?_, by simp⟩
    exact List.mem_append_right _ (List.mem_singleton.mpr rfl)

/-- C4: dedup upsert is idempotent — upserting the same
(content, evidenceRef) pair twice yields the same index as upserting it
once, and on a fresh index the resulting unit carries that evidence
reference exactly once, not twice. -/
theorem upsert_idempotent (idx : List CanonicalUnit) (c e : String) (i : Nat) :
    upsert (upsert idx c e i) c e i = upsert idx c e i ∧
    upsert (upsert [] c e i) c e i =
      [{ anchor := normalize c, content := normalize c, evidence := [e],
         position := i, userEdited := false }] := by
  have main : ∀ idx' : List CanonicalUnit,
      upsert (upsert idx' c e i) c e i = upsert idx' c e i := by
    intro idx'
    conv_lhs => rw [upsert]
    rw [if_pos (upsert_any idx' c e i)]
    apply map_eq_self_of
    intro u hu
    rw [upsert] at hu
    split at hu
    · rcases List.mem_map.mp hu with ⟨v, hv, rfl⟩
      by_cases hva : v.anchor = normalize c
      · rw [if_pos hva, if_pos (by rw [mergeInto_anchor]; exact hva),
          mergeInto_mergeInto]
      · rw [if_neg hva, if_neg hva]
    · rcases List.mem_append.mp hu with hl | hr
      · rename_i hnone
        have : ¬ u.anchor = normalize c := by
          intro hcontra
          exact hnone (List.any_eq_true.mpr ⟨u, hl, by simpa using hcontra⟩)
        rw [if_neg this]
      · rcases List.mem_singleton.mp hr with rfl
        rw [if_pos rfl]
        simp [mergeInto, addEvidence]
  refine ⟨main idx, ?_⟩
  rw [main []]
  rw [upsert]
  simp

/-- C5: a repeat upsert of an already-present content hash changes only the
evidence lists — every unit's content, position (earliest dispatch index),
anchor and user-edited flag are unchanged (so user-edited content is never
overwritten by automatic merges, while evidence still merges); the matching
unit's evidence gains the new reference if absent.  In the spec's scenario,
two branches producing "atp is produced in mitochondria" with evidence E1
(dispatch index 1) and E2 (dispatch index 2) merge into one unit with
evidence [E1, E2] and the position of the lower dispatch index. -/
theorem upsert_repeat_frame (idx : List CanonicalUnit) (c e : String) (i : Nat)
    (h : idx.any (fun u => u.anchor == normalize c) = true) :
    (upsert idx c e i).map CanonicalUnit.content =
      idx.map CanonicalUnit.content ∧
    (upsert idx c e i).map CanonicalUnit.position =
      idx.map CanonicalUnit.position ∧
    (upsert idx c e i).map CanonicalUnit.anchor =
      idx.map CanonicalUnit.anchor ∧
    (upsert idx c e i).map CanonicalUnit.userEdited =
      idx.map CanonicalUnit.userEdited ∧
    (upsert idx c e i).map CanonicalUnit.evidence =
      idx.map (fun u => if u.anchor = normalize c
        then addEvidence u.evidence e else u.evidence) ∧
    upsert (upsert [] "atp is produced in mitochondria" "E1" 1)
        "atp is produced in mitochondria" "E2" 2 =
      [{ anchor := "atp is produced in mitochondria",
         content := "atp is produced in mitochondria",
         evidence := ["E1", "E2"], position := 1, userEdited := false }] := by
  rw [upsert, if_pos h]
  refine ⟨?_, ?_, ?_, ?_, ?_, by decide⟩ <;>
  · rw [List.map_map]
    apply List.map_congr_left
    intro u _
    by_cases hu : u.anchor = normalize c <;>
      simp [hu, mergeInto]

/-- Witness for `upsert_repeat_frame` at a concrete one-unit index. -/
theorem upsert_repeat_frame_witness :
    (upsert [{ anchor := "k", content := "k", evidence := ["E1"],
               position := 0, userEdited := true }] "k" "E2" 3).map
        CanonicalUnit.content =
      [{ anchor := "k", content := "k", evidence := ["E1"], position := 0,
         userEdited := true : CanonicalUnit }].map CanonicalUnit.content :=
  (upsert_repeat_frame _ "k" "E2" 3 (by decide)).1

/-! ## Theorems about the Reducer Library -/

/-- C6: each provided reducer — ordered-append-unique, index-merge and
replace-if-absent — is a total function: it accepts the empty/absent
existing value and the empty incoming list, returning the merged value
given by these defining equations rather than throwing. -/
theorem reducers_total {α : Type} [DecidableEq α] (existing : Option (List α))
    (eIdx : Option (List CanonicalUnit)) (eScalar : Option α) (x : α)
    (inc : List α) :
    orderedAppendUnique existing [] = existing.getD [] ∧
    orderedAppendUnique (α := α) none [] = [] ∧
    orderedAppendUnique none inc = orderedAppendUnique (some []) inc ∧
    indexMerge eIdx [] = eIdx.getD [] ∧
    indexMerge none [] = [] ∧
    replaceIfAbsent eScalar [] = eScalar ∧
    replaceIfAbsent (α := α) none inc = inc.head? ∧
    replaceIfAbsent (some x) inc = some x := by
  refine ⟨rfl, rfl, rfl, rfl, rfl, ?_, rfl, rfl⟩
  cases eScalar <;> rfl

/-! ## Theorems about the web client -/

/-- C7: the job status object exposed to clients does not carry a
last-checkpoint sequence field — neither `lastCheckpointSeq` nor a
snake-case variant appears among the `Job` interface's fields. -/
theorem job_no_checkpoint_seq_field :
    "lastCheckpointSeq" ∉ jobFields ∧ "last_checkpoint_seq" ∉ jobFields := by
  constructor <;> decide

/-- C7 (amended): `getJob` returns the `Job` record, which carries the
run's status and error information (`status`, `error_message`) together
with progress fields, but no checkpoint sequence number; checkpoint resume
is surfaced only through the retry endpoint's behaviour, not through a
`lastCheckpointSeq` status field. -/
theorem job_status_and_error_fields :
    "status" ∈ jobFields ∧ "error_message" ∈ jobFields ∧
    "progress" ∈ jobFields ∧ "current_step" ∈ jobFields ∧
    "lastCheckpointSeq" ∉ jobFields := by
  refine ⟨by decide, by decide, by decide, by decide, by decide⟩

/-- C8: a lost or unparseable progress event leaves the job state exactly
unchanged in both stream handlers, and a delivered event updates only the
displayed `progress` and `current_step` — every other job field (identity,
status, error message, results linkage) is untouched. -/
theorem progress_event_loss_harmless (jobs : List JobWithDeck)
    (job : Option Job) (jobId : String) (d : ProgressEvent) :
    onStreamMessage jobs jobId none = jobs ∧
    onJobStreamMessage job none = job ∧
    (onStreamMessage jobs jobId (some d)).map (fun j =>
        (j.id, j.project_id, j.document_id, j.deck_id, j.job_type, j.status,
         j.error_message, j.created_at, j.finished_at, j.deck_name)) =
      jobs.map (fun j =>
        (j.id, j.project_id, j.document_id, j.deck_id, j.job_type, j.status,
         j.error_message, j.created_at, j.finished_at, j.deck_name)) ∧
    (onJobStreamMessage job (some d)).map (fun j =>
        (j.id, j.project_id, j.document_id, j.deck_id, j.job_type, j.status,
         j.error_message, j.created_at, j.finished_at)) =
      job.map (fun j =>
        (j.id, j.project_id, j.document_id, j.deck_id, j.job_type, j.status,
         j.error_message, j.created_at, j.finished_at)) := by
  refine ⟨rfl, ?_, ?_, ?_⟩
  · cases job <;> rfl
  · rw [onStreamMessage, List.map_map]
    apply List.map_congr_left
    intro j _
    by_cases h : j.id = jobId <;> simp [h]
  · cases job <;> rfl

/-- C9: the claim reads the thrown message as the error body's `detail`
field whenever the body parses and contains one.  The code uses JavaScript
`error.detail || fallback`, so a present but empty `detail` (a falsy value)
yields the generic message instead: at status 500 with error body
`{"detail": ""}` the thrown message is "API error: 500", not `""`. -/
theorem request_detail_message_claim_false :
    requestResult { ok := false, status := 500, body := (),
                    errorBody := ParsedBody.obj (some "") } ≠
      Except.error (claimedErrorMessage (ParsedBody.obj (some "")) 500) ∧
    claimedErrorMessage (ParsedBody.obj (some "")) 500 = "" := by
  constructor
  · intro h
    have h2 := Except.error.inj h
    have h3 : ("API error: " ++ toString 500 : String) = "" := h2
    exact absurd h3 (by decide)
  · rfl

/-- C9 (amended): `request` returns the parsed JSON body when the response
is ok, and otherwise produces an error (never a value) whose message is the
`detail` field of the parsed error body when that field is present and
non-empty, and the string "API error: <status code>" otherwise (body
unparseable, no `detail`, or empty `detail`). -/
theorem request_ok_and_error_messages {τ : Type} (resp : ApiResponse τ) :
    (resp.ok = true → requestResult resp = Except.ok resp.body) ∧
    (resp.ok = false → resp.errorBody = ParsedBody.failed →
      requestResult resp =
        Except.error ("API error: " ++ toString resp.status)) ∧
    (resp.ok = false → resp.errorBody = ParsedBody.obj none →
      requestResult resp =
        Except.error ("API error: " ++ toString resp.status)) ∧
    (resp.ok = false → resp.errorBody = ParsedBody.obj (some "") →
      requestResult resp =
        Except.error ("API error: " ++ toString resp.status)) ∧
    (∀ d, d ≠ "" → resp.ok = false → resp.errorBody = ParsedBody.obj (some d) →
      requestResult resp = Except.error d) := by
  refine ⟨?_, ?_, ?_, ?_, ?_⟩
  · intro hok
    rw [requestResult, if_pos hok]
  · intro hok hb
    rw [requestResult, if_neg (by simp [hok]), hb]
  · intro hok hb
    rw [requestResult, if_neg (by simp [hok]), hb]
  · intro hok hb
    rw [requestResult, if_neg (by simp [hok]), hb]
    simp
  · intro d hd hok hb
    rw [requestResult, if_neg (by simp [hok]), hb]
    simp [hd]

/-- Witness for `request_ok_and_error_messages`: a 404 with a non-empty
`detail` surfaces that detail as the error message. -/
theorem request_ok_and_error_messages_witness :
    requestResult { ok := false, status := 404, body := (0 : Nat),
                    errorBody := ParsedBody.obj (some "boom") } =
      Except.error "boom" :=
  (request_ok_and_error_messages _).2.2.2.2 "boom" (by decide) rfl rfl

/-- C10: while an edit or save is in progress (or no current card exists),
`updateCardStatus` is a no-op — the review state, including the cards
array, is unchanged and no update request is issued. -/
theorem updateCardStatus_noop_while_editing (st : ReviewState)
    (status : CardStatus)
    (h : st.cards[st.currentIndex]? = none ∨ st.isEditing = true ∨
      st.isSaving = true) :
    updateCardStatus st status = (st, false) := by
  rw [updateCardStatus, if_pos ?_]
  rcases h with h | h | h <;> simp [h]

/-- Witness for `updateCardStatus_noop_while_editing`: approving while an
edit is in progress changes nothing and issues no request. -/
theorem updateCardStatus_noop_while_editing_witness :
    updateCardStatus
        { cards := [{ id := "c1", deck_id := "d1", anchor_id := none,
                      front := "f", back := "b", tags := [],
                      confidence := 1, flags_json := [], evidence_json := [],
                      status := CardStatus.pending }],
          currentIndex := 0, isEditing := true, isSaving := false }
        CardStatus.approved =
      ({ cards := [{ id := "c1", deck_id := "d1", anchor_id := none,
                     front := "f", back := "b", tags := [],
                     confidence := 1, flags_json := [], evidence_json := [],
                     status := CardStatus.pending }],
         currentIndex := 0, isEditing := true, isSaving := false }, false) :=
  updateCardStatus_noop_while_editing _ CardStatus.approved
    (Or.inr (Or.inl rfl))

end Slide2Anki
